import Mathlib

/-!  # Verification of the wish shell against its specification

Shallow embedding of `src/wish.c`.  Tokens and C strings are modelled as
`List Char`; NULL-terminated token arrays as `List Tok`; fallible or
crashing paths of the C code as `Option`.  Operating-system effects
(fork, execv, open, dup2, waitpid) are modelled as events in traces; the
success of `open` and `execv` on a concrete path is abstracted by boolean
oracles, since it depends on the file system.  `fork` is modelled as
succeeding; the pid bookkeeping that the claims are about is independent
of the forked child's identity. -/

/-- A token: one C string produced by the tokenizer of wish.c. -/
abbrev Tok : Type := List Char

/-- The parallel separator token, C macro PARALLEL_DELIM "&". -/
def ampTok : Tok := ['&']

/-- The redirection operator token, C macro REDIRECTION_DELIM ">". -/
def gtTok : Tok := ['>']

/-- C macro TOKENS_NUMBER (64): the size of every token buffer in wish.c. -/
def TOKENS_NUMBER : Nat := 64

/-- C macro MAX_PARALLEL_PROCESSES (16): size of the pid array in wish_shell. -/
def MAX_PARALLEL_PROCESSES : Nat := 16

/-- The name of the exit builtin. -/
def strExit : Tok := ['e', 'x', 'i', 't']

/-- The name of the cd builtin. -/
def strCd : Tok := ['c', 'd']

/-- The name of the path builtin. -/
def strPath : Tok := ['p', 'a', 't', 'h']

/-- The maximal runs of non-delimiter characters of a list, in order,
dropping all delimiter characters: exactly the sequence of results of
repeated strtok(3) calls on the list with delimiter set `d`.  Used for
the whitespace pass of parse_line (DELIM " \t\n\r") and for the operator
passes of parse_subtokens (single-character delimiter sets ">" and "&"). -/
def splitRunsP (d : Char → Bool) : List Char → List (List Char)
  | [] => []
  | [a] => if d a then [] else [[a]]
  | a :: b :: rest =>
    if d a then splitRunsP d (b :: rest)
    else if d b then [a] :: splitRunsP d (b :: rest)
    else
      match splitRunsP d (b :: rest) with
      | [] => [[a]]
      | r :: rs => (a :: r) :: rs

/-- Membership in the C macro DELIM " \t\n\r". -/
def isWsChar (c : Char) : Bool := c == ' ' || c == '\t' || c == '\n' || c == '\r'

/-- The whitespace pass of parse_line (wish.c lines 429-437):
`strtok(line, DELIM)` repeated while `token_count < TOKENS_NUMBER - 1`.
At most 63 tokens are kept; any further tokens of the line are silently
dropped by the loop condition, with no error reported. -/
def wsTokens (line : List Char) : List Tok :=
  (splitRunsP isWsChar line).take (TOKENS_NUMBER - 1)

/-- One iteration of the loop of parse_subtokens (wish.c lines 365-403) on a
single token `t` with the single-character delimiter `c`:
* a token that is exactly the delimiter is kept as is;
* a token whose first strtok result equals the whole token (no delimiter
  character inside) is kept as is;
* otherwise the strtok results (maximal non-delimiter runs, empty pieces
  discarded) are emitted with one delimiter token between consecutive runs
  (the do-while loop appends a delimiter after every run and then removes
  the final one);
* `none` models the crash of the C code on a token made of two or more
  delimiter characters only (e.g. ">>" or "&&"): there strtok returns NULL
  and the code passes NULL to strcmp. -/
def subtokOne (c : Char) (t : Tok) : Option (List Tok) :=
  if t = [c] then some [t]
  else
    match splitRunsP (fun x => x == c) t with
    | [] => none
    | r :: rs => if r = t then some [t] else some (List.intersperse [c] (r :: rs))

/-- parse_subtokens (wish.c lines 358-408): rescan of a whole token list for
one operator character, concatenating the per-token results. -/
def parse_subtokens (c : Char) : List Tok → Option (List Tok)
  | [] => some []
  | t :: ts =>
    match subtokOne c t, parse_subtokens c ts with
    | some a, some b => some (a ++ b)
    | _, _ => none

/-- parse_line (wish.c lines 415-451): whitespace split (with the silent
63-token cap), then the '>' pass, then the '&' pass. -/
def parse_line (line : List Char) : Option (List Tok) :=
  match parse_subtokens '>' (wsTokens line) with
  | none => none
  | some ts => parse_subtokens '&' ts

/-- The sub-command dispatch loop of wish_shell (wish.c lines 504-542),
with `cc` the tokens accumulated so far in current_command.  On a "&"
token: if current_command is empty the loop `break`s (and the final
`if (command_arg_count)` check then dispatches nothing, since the counter
is 0); otherwise the accumulated command is dispatched and the
accumulator reset.  When the tokens run out, a nonempty accumulator is
dispatched by the final `if (command_arg_count)` check. -/
def orchGo (cc : List Tok) : List Tok → List (List Tok)
  | [] => if cc = [] then [] else [cc]
  | a :: rest =>
    if a = ampTok then
      if cc = [] then [] else cc :: orchGo [] rest
    else orchGo (cc ++ [a]) rest

/-- The sequence of sub-commands a line's token list actually hands to
execute_command, in order (wish_shell, wish.c lines 504-542). -/
def orchestrate (args : List Tok) : List (List Tok) := orchGo [] args

/-- Splitting a token list at every "&" token: the sub-command segments of
specification section 4.5.  Segments may be empty (leading, trailing or
consecutive "&"). -/
def splitAmp : List Tok → List (List Tok)
  | [] => [[]]
  | a :: rest =>
    if a = ampTok then [] :: splitAmp rest
    else
      match splitAmp rest with
      | [] => [[a]]
      | s :: ss => (a :: s) :: ss

/-- Which segments get dispatched, per the amended orchestrator contract:
segments are dispatched left to right; the first empty segment stops all
processing of the line (it is itself not dispatched and everything after
it is abandoned); in particular a trailing empty segment is skipped. -/
def dispatchSegs : List (List Tok) → List (List Tok)
  | [] => []
  | s :: ss => if s = [] then [] else s :: dispatchSegs ss

/-- The amended orchestrator contract, stated independently of the
implementation: split at every "&", then dispatch segments until the
first empty one. -/
def orchestrateSpec (args : List Tok) : List (List Tok) := dispatchSegs (splitAmp args)

/-- Helper for relating orchGo to the segment view: dispatch over the
remaining segments with a pending current-command prefix `cc`. -/
def dsAux (cc : List Tok) : List (List Tok) → List (List Tok)
  | [] => if cc = [] then [] else [cc]
  | [s] => if cc ++ s = [] then [] else [cc ++ s]
  | s :: s2 :: ss => if cc ++ s = [] then [] else (cc ++ s) :: dsAux [] (s2 :: ss)

/-- Whether execute_builtin_command (wish.c lines 160-176) handles the
sub-command: it does exactly when the first token is "exit", "cd" or
"path" (tried in that order; each helper only inspects args[0] to decide
whether it is responsible). -/
def isBuiltinHead (c : List Tok) : Bool :=
  match c.head? with
  | some t => t == strExit || t == strCd || t == strPath
  | none => false

/-- execute_path (wish.c lines 119-152), as a function from the argument
list to the new Search-Path Registry: if args[0] is "path", every old
entry is freed and the remaining arguments are copied in order into the
PATH array while `path_count < TOKENS_NUMBER - 1`, so at most 63 entries
are stored; the function then reports success.  `none` models the
EXIT_FAILURE "not handled" return when args[0] is not "path".  The old
registry is passed in only to show the result never depends on it. -/
def execute_path (oldPATH : List Tok) (args : List Tok) : Option (List Tok) :=
  if args.head? = some strPath then some ((args.drop 1).take (TOKENS_NUMBER - 1))
  else none

/-- initialize_path (wish.c lines 46-51): the two startup defaults. -/
def initialize_path : List Tok :=
  [['/', 'b', 'i', 'n'], ['/', 'u', 's', 'r', '/', 'b', 'i', 'n']]

/-- The scanning loop of handle_redirection (wish.c lines 206-253), with
`pre` the arguments already passed over (those before the first ">").
Returns `none` on the three syntax-error returns of the C code
(">" as first token, nothing after ">", more than one token after ">"),
and otherwise the stripped argument list together with the redirection
target, if any. -/
def hrGo (pre : List Tok) : List Tok → Option (List Tok × Option Tok)
  | [] => some (pre, none)
  | t :: rest =>
    if t = gtTok then
      if pre = [] then none
      else
        match rest with
        | [] => none
        | [f] => some (pre, some f)
        | _ :: _ :: _ => none
    else hrGo (pre ++ [t]) rest

/-- handle_redirection's scan (wish.c lines 206-253) on a full argument
list. -/
def handle_redirection (args : List Tok) : Option (List Tok × Option Tok) :=
  hrGo [] args

/-- Claim C4's description of malformed redirection, for the part of the
argument list after the first token: the first ">" is followed by a
number of tokens different from one. -/
def malAfterCmd : List Tok → Bool
  | [] => false
  | t :: rest => if t = gtTok then rest.length != 1 else malAfterCmd rest

/-- Claim C4's description of malformed redirection syntax: ">" as the
first token, or the first ">" followed by zero or by two or more
tokens. -/
def malformedRedir (args : List Tok) : Bool :=
  match args with
  | [] => false
  | t :: rest => if t = gtTok then true else malAfterCmd rest

/-- Observable events inside the forked child of execute_command. -/
inductive ChildEv where
  | openRedirect (f : Tok)
  | dupStdout
  | execTry (p : Tok)
  | errPrint
  | exitFail
deriving DecidableEq

/-- create_executable_path (wish.c lines 185-199): "<dir>/<command>". -/
def create_executable_path (path : Tok) (command : Tok) : Tok :=
  path ++ '/' :: command

/-- The execv loop of the child (wish.c lines 320-335): each Search-Path
Registry directory in order yields one execv attempt on
create_executable_path; a successful execv replaces the process image, so
the trace ends there; when the directories are exhausted the child prints
the generic error and exits with failure status.  `ok` tells which
candidate paths execv would load. -/
def execPhase (ok : Tok → Bool) (cmd0 : Tok) : List Tok → List ChildEv
  | [] => [ChildEv.errPrint, ChildEv.exitFail]
  | d :: rest =>
    ChildEv.execTry (create_executable_path d cmd0) ::
      (if ok (create_executable_path d cmd0) then [] else execPhase ok cmd0 rest)

/-- Which candidate, if any, the search loop of the child succeeds on:
the first directory whose candidate path `ok` accepts. -/
def resolveSearch (paths : List Tok) (ok : Tok → Bool) (cmd0 : Tok) : Option Tok :=
  match paths with
  | [] => none
  | d :: rest =>
    if ok (create_executable_path d cmd0) then some (create_executable_path d cmd0)
    else resolveSearch rest ok cmd0

/-- Everything the forked child of execute_command does (wish.c lines
309-336): handle_redirection first (syntax error: the scan returns
EXIT_FAILURE silently and the child then prints the generic error and
exits with failure; open failure: handle_redirection prints the error,
returns EXIT_FAILURE, and the child prints again and exits with failure;
success with a target: open then dup2 onto standard output), then the
execv search loop.  dup2 is modelled as succeeding. -/
def childRun (paths : List Tok) (openOk : Tok → Bool) (execOk : Tok → Bool)
    (args : List Tok) : List ChildEv :=
  match handle_redirection args with
  | none => [ChildEv.errPrint, ChildEv.exitFail]
  | some (cmd, none) => execPhase execOk (cmd.headD []) paths
  | some (cmd, some f) =>
    if openOk f then
      ChildEv.openRedirect f :: ChildEv.dupStdout :: execPhase execOk (cmd.headD []) paths
    else [ChildEv.errPrint, ChildEv.errPrint, ChildEv.exitFail]

/-- What one execute_command call (wish.c lines 289-344) amounts to, seen
from the shell: whether a builtin handled the sub-command in the shell's
own process, whether a child was forked, the child's events, and the
redirection/exec events performed in the parent process itself — the
parent branch of the fork only records the child pid and returns, so the
latter list is empty by construction, mirroring the code. -/
structure LaunchResult where
  builtinRan : Bool
  forkHappened : Bool
  childEvents : List ChildEv
  parentSideEvents : List ChildEv
deriving DecidableEq

/-- execute_command (wish.c lines 289-344): builtin dispatch first (no
fork, no pid recorded); otherwise fork, with all redirection handling and
path search inside the child. -/
def execute_command (paths : List Tok) (openOk execOk : Tok → Bool)
    (args : List Tok) : LaunchResult :=
  if isBuiltinHead args then ⟨true, false, [], []⟩
  else ⟨false, true, childRun paths openOk execOk args, []⟩

/-- Per-line events of wish_shell, in program order: `launch` is a fork of
an external sub-command, `builtinRun` a builtin executed synchronously,
`term` the immediate process termination by the exit builtin, `wait i` a
waitpid on pid-array slot `i`, and `nextLine` the return of control to
the getline call for the next input line. -/
inductive Ev where
  | launch (c : List Tok)
  | builtinRun (c : List Tok)
  | term
  | wait (i : Nat)
  | nextLine
deriving DecidableEq

/-- The dispatch-phase events for the sub-commands of one line, in order:
"exit" with no further argument terminates the process immediately
(wish.c line 107) and nothing after it runs; "exit" with arguments, "cd"
and "path" run synchronously in the shell; anything else is forked. -/
def dispatchEvList : List (List Tok) → List Ev
  | [] => []
  | c :: rest =>
    if c.head? = some strExit then
      if c.length = 1 then [Ev.term] else Ev.builtinRun c :: dispatchEvList rest
    else if isBuiltinHead c then Ev.builtinRun c :: dispatchEvList rest
    else Ev.launch c :: dispatchEvList rest

/-- Whether the dispatch phase runs into the exit builtin with no
arguments, terminating the whole process before the wait loop. -/
def dispatchTerminates : List (List Tok) → Bool
  | [] => false
  | c :: rest =>
    if c.head? = some strExit then
      if c.length = 1 then true else dispatchTerminates rest
    else dispatchTerminates rest

/-- The final value of process_count for one line (wish.c lines 524 and
541): the counter is post-incremented on every execute_command call,
whether or not the sub-command was a builtin, so it equals the number of
dispatched sub-commands. -/
def processCount (args : List Tok) : Nat := (orchestrate args).length

/-- How many of a line's dispatched sub-commands are external (not handled
by a builtin), i.e. how many forks the line causes. -/
def externalCount (args : List Tok) : Nat :=
  ((orchestrate args).filter (fun c => !(isBuiltinHead c))).length

/-- The full event trace of wish_shell for one input line's parsed token
list (wish.c lines 504-561): all dispatch events, then — unless the exit
builtin terminated the process — one waitpid per pid-array slot
0..process_count-1, then control returns for the next line. -/
def lineTrace (args : List Tok) : List Ev :=
  if dispatchTerminates (orchestrate args) then dispatchEvList (orchestrate args)
  else
    dispatchEvList (orchestrate args) ++
      ((List.range (processCount args)).map Ev.wait ++ [Ev.nextLine])

/-- The pid-array indices written during one line (wish.c line 524):
`parallel_processes[process_count++]` with no bounds check, so the
indices 0..process_count-1 are used as is, whatever their size. -/
def slotIndices (args : List Tok) : List Nat := List.range (processCount args)

/-- Recognizer for wait events. -/
def isWaitEv : Ev → Bool
  | Ev.wait _ => true
  | _ => false

/-- The token "ls", used for concrete instantiations. -/
def strLs : Tok := ['l', 's']

/-- The candidate path "/usr/bin/ls". -/
def strUsrBinLs : Tok := ['/', 'u', 's', 'r', '/', 'b', 'i', 'n', '/', 'l', 's']

/-- A concrete execv oracle: only "/usr/bin/ls" loads. -/
def okUsrBinLs : Tok → Bool := fun t => t == strUsrBinLs

/-- An input line with seventeen "&"-separated sub-commands:
"a & a & ... & a". -/
def line17 : List Tok := List.flatten (List.replicate 16 [['a'], ampTok]) ++ [['a']]

/-- splitAmp always yields at least one segment. -/
theorem splitAmp_ne_nil (args : List Tok) : splitAmp args ≠ [] := by
  cases args with
  | nil => simp [splitAmp]
  | cons a rest =>
    simp only [splitAmp]
    split
    · simp
    · cases h : splitAmp rest <;> simp

/-- The dispatch loop with pending prefix cc equals segment-wise dispatch
with the same pending prefix. -/
theorem orchGo_eq_dsAux : ∀ (args : List Tok) (cc : List Tok),
    orchGo cc args = dsAux cc (splitAmp args) := by
  intro args
  induction args with
  | nil => intro cc; simp [orchGo, splitAmp, dsAux]
  | cons a rest ih =>
    intro cc
    obtain ⟨s, ss, hss⟩ : ∃ s ss, splitAmp rest = s :: ss := by
      cases h : splitAmp rest with
      | nil => exact absurd h (splitAmp_ne_nil rest)
      | cons s ss => exact ⟨s, ss, rfl⟩
    by_cases ha : a = ampTok
    · simp only [orchGo, splitAmp, if_pos ha, hss]
      rw [ih [], hss]
      by_cases hcc : cc = [] <;> simp [dsAux, hcc]
    · simp only [orchGo, splitAmp, if_neg ha, hss]
      rw [ih (cc ++ [a]), hss]
      have happ : cc ++ a :: s = (cc ++ [a]) ++ s := by simp
      have hne : (cc ++ [a]) ++ s ≠ [] := by simp
      cases ss with
      | nil =>
        simp only [dsAux]
        rw [happ]
      | cons s2 ss2 =>
        simp only [dsAux]
        rw [happ]

/-- Segment-wise dispatch with an empty pending prefix is dispatchSegs. -/
theorem dsAux_nil_eq : ∀ segs : List (List Tok), dsAux [] segs = dispatchSegs segs := by
  intro segs
  induction segs with
  | nil => simp [dsAux, dispatchSegs]
  | cons s ss ih =>
    cases ss with
    | nil => simp [dsAux, dispatchSegs]
    | cons s2 ss2 =>
      simp only [dsAux, dispatchSegs, List.nil_append]
      by_cases hs : s = [] <;> simp [hs, ih, dispatchSegs]

/-- C1 (amended): the orchestrator never launches an empty sub-command, but
contrary to the claim it does not merely skip it: splitting the line's
tokens at every "&", the non-empty segments are dispatched in order only
up to the first empty segment, at which point the rest of the line is
abandoned (a trailing empty segment is simply skipped).  In particular
every dispatched sub-command is non-empty, and sub-commands after a
leading "&" or after consecutive "&" are never dispatched. -/
theorem wish_c1_amended (args : List Tok) : orchestrate args = orchestrateSpec args := by
  rw [orchestrate, orchestrateSpec, orchGo_eq_dsAux, dsAux_nil_eq]

/-- C1 counterexample: on the line "& ls" the sub-command before the "&" is
empty, and the claim demands that the non-empty sub-command "ls" still be
dispatched; the code dispatches nothing at all (the loop breaks). -/
theorem wish_c1_counterexample :
    orchestrate [ampTok, strLs] = [] ∧ orchestrate [ampTok, strLs] ≠ [[strLs]] := by
  decide

/-- Every piece produced by the strtok-style splitter is a non-empty run
containing no delimiter character. -/
theorem splitRunsP_sound (d : Char → Bool) :
    ∀ l : List Char, ∀ p ∈ splitRunsP d l, p ≠ [] ∧ ∀ x ∈ p, d x = false := by
  intro l
  induction l with
  | nil => intro p hp; simp [splitRunsP] at hp
  | cons a rest ih =>
    cases rest with
    | nil =>
      intro p hp
      cases hda : d a with
      | true => simp [splitRunsP, hda] at hp
      | false =>
        simp [splitRunsP, hda] at hp
        subst hp
        refine ⟨by simp, ?_⟩
        intro x hx
        simp at hx
        subst hx
        exact hda
    | cons b rest2 =>
      intro p hp
      cases hda : d a with
      | true =>
        simp only [splitRunsP, hda, if_true] at hp
        exact ih p hp
      | false =>
        cases hdb : d b with
        | true =>
          simp [splitRunsP, hda, hdb] at hp
          rcases hp with rfl | h
          · refine ⟨by simp, ?_⟩
            intro x hx
            simp at hx
            subst hx
            exact hda
          · exact ih p h
        | false =>
          cases hsp : splitRunsP d (b :: rest2) with
          | nil =>
            simp [splitRunsP, hda, hdb, hsp] at hp
            subst hp
            refine ⟨by simp, ?_⟩
            intro x hx
            simp at hx
            subst hx
            exact hda
          | cons r rs =>
            simp [splitRunsP, hda, hdb, hsp] at hp
            rcases hp with rfl | h
            · have hr := ih r (by rw [hsp]; exact List.mem_cons_self r rs)
              refine ⟨by simp, ?_⟩
              intro x hx
              rcases List.mem_cons.mp hx with rfl | h2
              · exact hda
              · exact hr.2 x h2
            · exact ih p (by rw [hsp]; exact List.mem_cons_of_mem r h)

/-- C2 (amended): for a whitespace-delimited word containing an embedded
`>` or `&`, the tokenizer does not preserve every occurrence of the
operator: it splits the word at its maximal runs of operator characters,
yielding the non-empty operator-free substrings with a single operator
token between consecutive substrings — consecutive occurrences of the
operator collapse into one token and occurrences at the start or the end
of the word are dropped.  In particular "echo>out.txt" yields
["echo", ">", "out.txt"], "a & b" yields ["a", "&", "b"], "a&b" yields
["a", "&", "b"], and "a&&b" yields ["a", "&", "b"] (not
["a", "&", "&", "b"]). -/
theorem wish_c2_amended :
    parse_line ("echo>out.txt".toList) =
      some [['e','c','h','o'], gtTok, ['o','u','t','.','t','x','t']]
  ∧ parse_line ("a & b".toList) = some [['a'], ampTok, ['b']]
  ∧ parse_line ("a&b".toList) = some [['a'], ampTok, ['b']]
  ∧ parse_line ("a&&b".toList) = some [['a'], ampTok, ['b']]
  ∧ ∀ (d : Char → Bool) (l : List Char),
      ((splitRunsP d l).all fun p => !p.isEmpty && p.all fun x => !d x) = true := by
  refine ⟨by decide, by decide, by decide, by decide, ?_⟩
  intro d l
  rw [List.all_eq_true]
  intro p hp
  obtain ⟨h1, h2⟩ := splitRunsP_sound d l p hp
  rw [Bool.and_eq_true]
  constructor
  · cases p with
    | nil => exact absurd rfl h1
    | cons x xs => simp
  · rw [List.all_eq_true]
    intro x hx
    simp [h2 x hx]

/-- C2 counterexample: the claim states that tokenizing "a&&b" yields
exactly ["a", "&", "&", "b"]; the code's strtok-based splitter collapses
the two adjacent "&" and yields ["a", "&", "b"]. -/
theorem wish_c2_counterexample :
    parse_line ("a&&b".toList) = some [['a'], ampTok, ['b']]
  ∧ parse_line ("a&&b".toList) ≠ some [['a'], ampTok, ampTok, ['b']] := by
  decide

/-- C3: evaluating the code's pid bookkeeping on the builtin-only line
"cd /".  The claim (and the comment in execute_command) says builtins
record no process handle and the wait step of a builtin-only line is a
no-op; but wish_shell post-increments process_count on every
execute_command call, so this line ends with process_count = 1 while zero
children were forked, and the wait loop performs one waitpid on the
never-written (uninitialized) slot parallel_processes[0]. -/
theorem wish_c3_eval :
    orchestrate [strCd, ['/']] = [[strCd, ['/']]]
  ∧ isBuiltinHead [strCd, ['/']] = true
  ∧ processCount [strCd, ['/']] = 1
  ∧ externalCount [strCd, ['/']] = 0
  ∧ ((lineTrace [strCd, ['/']]).filter isWaitEv).length = 1 := by
  decide

/-- hrGo returns the syntax-error `none` exactly when the not-yet-scanned
remainder has a first ">" followed by a number of tokens other than one
(given that something precedes the scanned position). -/
theorem hrGo_none_iff :
    ∀ (rest pre : List Tok), pre ≠ [] →
      (hrGo pre rest = none ↔ malAfterCmd rest = true) := by
  intro rest
  induction rest with
  | nil => intro pre hp; simp [hrGo, malAfterCmd]
  | cons t r ih =>
    intro pre hp
    by_cases ht : t = gtTok
    · simp only [hrGo, malAfterCmd, if_pos ht, if_neg hp]
      cases r with
      | nil => simp
      | cons f r2 =>
        cases r2 with
        | nil => simp
        | cons g r3 => simp
    · simp only [hrGo, malAfterCmd, if_neg ht]
      exact ih (pre ++ [t]) (by simp)

/-- C4 (amended): when a sub-command's redirection syntax is malformed
(">" as the first token, or the first ">" followed by zero or by two or
more tokens) the generic error is reported and the shell does not crash,
but contrary to the claim a process IS spawned for the sub-command
whenever its first token is not a builtin name: execute_command forks
first and only validates redirection inside the child, which prints the
generic error and exits with failure status without attempting any
execv.  (When the first token is "exit", "cd" or "path" the builtin
dispatcher handles the sub-command and nothing is forked.)  The first
conjunct ties the claim's syntactic description of malformed redirection
to the scan in handle_redirection. -/
theorem wish_c4_amended :
    (∀ args : List Tok, handle_redirection args = none ↔ malformedRedir args = true)
  ∧ (∀ (paths : List Tok) (openOk execOk : Tok → Bool) (args : List Tok),
      isBuiltinHead args = false → malformedRedir args = true →
        (execute_command paths openOk execOk args).forkHappened = true
      ∧ (execute_command paths openOk execOk args).childEvents =
          [ChildEv.errPrint, ChildEv.exitFail]
      ∧ (execute_command paths openOk execOk args).builtinRan = false) := by
  have hiff : ∀ args : List Tok, handle_redirection args = none ↔ malformedRedir args = true := by
    intro args
    cases args with
    | nil => simp [handle_redirection, hrGo, malformedRedir]
    | cons t rest =>
      by_cases ht : t = gtTok
      · simp [handle_redirection, hrGo, malformedRedir, ht]
      · simp only [handle_redirection, hrGo, malformedRedir, if_neg ht, List.nil_append]
        exact hrGo_none_iff rest [t] (by simp)
  refine ⟨hiff, ?_⟩
  intro paths openOk execOk args hb hm
  have hr : handle_redirection args = none := (hiff args).mpr hm
  refine ⟨?_, ?_, ?_⟩ <;> simp [execute_command, hb, childRun, hr]

/-- Witness for C4's amended theorem at the concrete sub-command
"> out": malformed (leading ">"), not a builtin, so a child is forked
and it only reports the error and exits. -/
theorem wish_c4_amended_witness :
    (execute_command [] (fun _ => true) (fun _ => true) [gtTok, ['o','u','t']]).forkHappened = true
  ∧ (execute_command [] (fun _ => true) (fun _ => true) [gtTok, ['o','u','t']]).childEvents =
      [ChildEv.errPrint, ChildEv.exitFail]
  ∧ (execute_command [] (fun _ => true) (fun _ => true) [gtTok, ['o','u','t']]).builtinRan = false :=
  wish_c4_amended.2 [] (fun _ => true) (fun _ => true) [gtTok, ['o','u','t']]
    (by decide) (by decide)

/-- C4 counterexample: on the malformed sub-command "> out.txt" the claim
says the shell spawns no process; the code forks a child (which then
reports the error and exits), so the fork count for the sub-command is
one, not zero. -/
theorem wish_c4_counterexample :
    malformedRedir [gtTok, ['o','u','t','.','t','x','t']] = true
  ∧ (execute_command initialize_path (fun _ => true) (fun _ => true)
      [gtTok, ['o','u','t','.','t','x','t']]).forkHappened = true := by
  decide

/-- Dispatch-phase events are never waits and never the next-line marker. -/
theorem mem_dispatchEvList :
    ∀ (ds : List (List Tok)) (e : Ev), e ∈ dispatchEvList ds →
      isWaitEv e = false ∧ e ≠ Ev.nextLine := by
  intro ds
  induction ds with
  | nil => intro e he; simp [dispatchEvList] at he
  | cons c rest ih =>
    intro e he
    simp only [dispatchEvList] at he
    split at he
    · split at he
      · simp at he
        subst he
        exact ⟨rfl, by simp⟩
      · rcases List.mem_cons.mp he with h | h
        · subst h; exact ⟨rfl, by simp⟩
        · exact ih e h
    · split at he
      · rcases List.mem_cons.mp he with h | h
        · subst h; exact ⟨rfl, by simp⟩
        · exact ih e h
      · rcases List.mem_cons.mp he with h | h
        · subst h; exact ⟨rfl, by simp⟩
        · exact ih e h

/-- C5: per-line temporal ordering of wish_shell.  In the event trace of
one input line, (i) every fork of an external sub-command strictly
precedes every waitpid, so launches are issued without waiting between
them; (ii) whenever control returns to read the next line, a waitpid has
been performed on every recorded pid-array slot of the line; and (iii)
every waitpid strictly precedes the return of control to the next line,
so the shell never proceeds to the next line before its wait loop is
done. -/
theorem wish_c5 (args : List Tok) :
    (∀ (i j : Nat) (c : List Tok) (k : Nat),
        (lineTrace args)[i]? = some (Ev.launch c) →
        (lineTrace args)[j]? = some (Ev.wait k) → i < j)
  ∧ (Ev.nextLine ∈ lineTrace args →
        ∀ s : Nat, s < processCount args → Ev.wait s ∈ lineTrace args)
  ∧ (∀ (j k m : Nat),
        (lineTrace args)[j]? = some (Ev.wait k) →
        (lineTrace args)[m]? = some Ev.nextLine → j < m) := by
  by_cases hterm : dispatchTerminates (orchestrate args) = true
  · have htr : lineTrace args = dispatchEvList (orchestrate args) := by
      simp [lineTrace, hterm]
    refine ⟨?_, ?_, ?_⟩
    · intro i j c k hi hj
      exfalso
      rw [htr] at hj
      have hmem := List.getElem?_mem hj
      have := (mem_dispatchEvList _ _ hmem).1
      simp [isWaitEv] at this
    · intro hnl
      exfalso
      rw [htr] at hnl
      exact (mem_dispatchEvList _ _ hnl).2 rfl
    · intro j k m hj hm
      exfalso
      rw [htr] at hm
      exact (mem_dispatchEvList _ _ (List.getElem?_mem hm)).2 rfl
  · have htr : lineTrace args =
        dispatchEvList (orchestrate args) ++
          ((List.range (processCount args)).map Ev.wait ++ [Ev.nextLine]) := by
      simp [lineTrace, hterm]
    have hWwait : ∀ e ∈ (List.range (processCount args)).map Ev.wait, ∃ k, e = Ev.wait k := by
      intro e he
      obtain ⟨a, _, h⟩ := List.mem_map.mp he
      exact ⟨a, h.symm⟩
    have hlaunch_lt : ∀ (i : Nat) (c : List Tok),
        (lineTrace args)[i]? = some (Ev.launch c) →
        i < (dispatchEvList (orchestrate args)).length := by
      intro i c hi
      by_contra h
      push_neg at h
      rw [htr, List.getElem?_append_right h] at hi
      have hmem := List.getElem?_mem hi
      rcases List.mem_append.mp hmem with h1 | h1
      · obtain ⟨k, hk⟩ := hWwait _ h1
        simp at hk
      · simp at h1
    have hwait_ge : ∀ (j k : Nat),
        (lineTrace args)[j]? = some (Ev.wait k) →
        (dispatchEvList (orchestrate args)).length ≤ j := by
      intro j k hj
      by_contra h
      push_neg at h
      rw [htr, List.getElem?_append, if_pos h] at hj
      have := (mem_dispatchEvList _ _ (List.getElem?_mem hj)).1
      simp [isWaitEv] at this
    have hwait_lt : ∀ (j k : Nat),
        (lineTrace args)[j]? = some (Ev.wait k) →
        j < (dispatchEvList (orchestrate args)).length +
              ((List.range (processCount args)).map Ev.wait).length := by
      intro j k hj
      by_contra h
      push_neg at h
      have h1 : (dispatchEvList (orchestrate args)).length ≤ j := by omega
      rw [htr, List.getElem?_append_right h1] at hj
      have h2 : ((List.range (processCount args)).map Ev.wait).length ≤
          j - (dispatchEvList (orchestrate args)).length := by omega
      rw [List.getElem?_append_right h2] at hj
      have := List.getElem?_mem hj
      simp at this
    have hnext_ge : ∀ m : Nat,
        (lineTrace args)[m]? = some Ev.nextLine →
        (dispatchEvList (orchestrate args)).length +
            ((List.range (processCount args)).map Ev.wait).length ≤ m := by
      intro m hm
      by_contra h
      push_neg at h
      by_cases h1 : m < (dispatchEvList (orchestrate args)).length
      · rw [htr, List.getElem?_append, if_pos h1] at hm
        exact (mem_dispatchEvList _ _ (List.getElem?_mem hm)).2 rfl
      · push_neg at h1
        rw [htr, List.getElem?_append_right h1] at hm
        have h2 : m - (dispatchEvList (orchestrate args)).length <
            ((List.range (processCount args)).map Ev.wait).length := by omega
        rw [List.getElem?_append, if_pos h2] at hm
        obtain ⟨k, hk⟩ := hWwait _ (List.getElem?_mem hm)
        simp at hk
    refine ⟨?_, ?_, ?_⟩
    · intro i j c k hi hj
      exact lt_of_lt_of_le (hlaunch_lt i c hi) (hwait_ge j k hj)
    · intro _ s hs
      rw [htr]
      refine List.mem_append.mpr (Or.inr (List.mem_append.mpr (Or.inl ?_)))
      exact List.mem_map.mpr ⟨s, List.mem_range.mpr hs, rfl⟩
    · intro j k m hj hm
      have ha := hwait_lt j k hj
      have hb := hnext_ge m hm
      omega

/-- Witness for C5 on the line "a & b": two launches at indices 0 and 1,
waits at 2 and 3, next-line at 4. -/
theorem wish_c5_witness :
    ((0 : Nat) < 2)
  ∧ Ev.wait 0 ∈ lineTrace [['a'], ampTok, ['b']]
  ∧ ((2 : Nat) < 4) :=
  ⟨(wish_c5 [['a'], ampTok, ['b']]).1 0 2 [['a']] 0 (by decide) (by decide),
   (wish_c5 [['a'], ampTok, ['b']]).2.1 (by decide) 0 (by decide),
   (wish_c5 [['a'], ampTok, ['b']]).2.2 2 0 4 (by decide) (by decide)⟩

set_option maxRecDepth 100000 in
/-- C6: evaluating the tokenizer on a line of 64 whitespace-separated
words, one more than its buffer-sizing bound TOKENS_NUMBER - 1 = 63.
The claim says tokenization then fails with a fatal parse error; instead
parse_line returns successfully with only the first 63 tokens — the
whitespace loop's condition silently drops the rest. -/
theorem wish_c6_eval :
    parse_line (List.intercalate [' '] (List.replicate 64 ['a'])) =
      some (List.replicate 63 ['a'])
  ∧ (splitRunsP isWsChar (List.intercalate [' '] (List.replicate 64 ['a']))).length = 64
  ∧ (wsTokens (List.intercalate [' '] (List.replicate 64 ['a']))).length = 63 := by
  refine ⟨by decide, by decide, by decide⟩

/-- Every event of the execv loop is an exec attempt, the error print or
the failure exit — never a redirection event. -/
theorem execPhase_shape (ok : Tok → Bool) (c0 : Tok) :
    ∀ paths : List Tok, ∀ e ∈ execPhase ok c0 paths,
      (∃ p, e = ChildEv.execTry p) ∨ e = ChildEv.errPrint ∨ e = ChildEv.exitFail := by
  intro paths
  induction paths with
  | nil =>
    intro e he
    simp [execPhase] at he
    rcases he with h | h
    · exact Or.inr (Or.inl h)
    · exact Or.inr (Or.inr h)
  | cons d rest ih =>
    intro e he
    simp only [execPhase] at he
    rcases List.mem_cons.mp he with h | h
    · exact Or.inl ⟨_, h⟩
    · split at h
      · simp at h
      · exact ih e h

/-- C7: the standard-output replacement for a redirected sub-command is
performed in the forked child only, after the child exists and before any
execv attempt: (i) in the child's event trace every open-and-redirect of
the target file strictly precedes every attempt to load a program image;
(ii) the parent branch of execute_command performs no redirection or exec
events at all, so the replacement is never observable in the shell's own
process; (iii) when a fork happened, the child's events are exactly
childRun, i.e. all redirection work sits on the child side of the fork. -/
theorem wish_c7 (paths : List Tok) (openOk execOk : Tok → Bool) (args : List Tok) :
    (∀ (i j : Nat) (f p : Tok),
        (childRun paths openOk execOk args)[i]? = some (ChildEv.openRedirect f) →
        (childRun paths openOk execOk args)[j]? = some (ChildEv.execTry p) → i < j)
  ∧ (execute_command paths openOk execOk args).parentSideEvents = []
  ∧ ((execute_command paths openOk execOk args).forkHappened = true →
        (execute_command paths openOk execOk args).childEvents =
          childRun paths openOk execOk args) := by
  refine ⟨?_, ?_, ?_⟩
  · intro i j f p hi hj
    cases hr : handle_redirection args with
    | none =>
      exfalso
      simp only [childRun, hr] at hi
      have := List.getElem?_mem hi
      simp at this
    | some pr =>
      obtain ⟨cmd, tgt⟩ := pr
      cases tgt with
      | none =>
        exfalso
        simp only [childRun, hr] at hi
        rcases execPhase_shape execOk (cmd.headD []) paths _ (List.getElem?_mem hi)
          with ⟨q, hq⟩ | h | h
        · simp at hq
        · simp at h
        · simp at h
      | some f0 =>
        by_cases ho : openOk f0 = true
        · simp only [childRun, hr, if_pos ho] at hi hj
          have hi0 : i = 0 := by
            cases i with
            | zero => rfl
            | succ i1 =>
              exfalso
              cases i1 with
              | zero => simp at hi
              | succ i2 =>
                rw [List.getElem?_cons_succ, List.getElem?_cons_succ] at hi
                rcases execPhase_shape execOk (cmd.headD []) paths _ (List.getElem?_mem hi)
                  with ⟨q, hq⟩ | h | h
                · simp at hq
                · simp at h
                · simp at h
          have hj2 : 2 ≤ j := by
            cases j with
            | zero => simp at hj
            | succ j1 =>
              cases j1 with
              | zero => simp at hj
              | succ j2 => omega
          omega
        · exfalso
          simp only [childRun, hr, if_neg ho] at hi
          have := List.getElem?_mem hi
          simp at this
  · cases hb : isBuiltinHead args <;> simp [execute_command, hb]
  · cases hb : isBuiltinHead args <;> simp [execute_command, hb]

/-- Witness for C7 on the sub-command "ls > f" with a one-directory
registry and oracles accepting everything: the child trace is
[open f, dup2, execTry "/bin/ls"], so the redirect at index 0 precedes
the exec attempt at index 2, and the child events sit on the fork's child
side. -/
theorem wish_c7_witness :
    ((0 : Nat) < 2)
  ∧ (execute_command [['/','b','i','n']] (fun _ => true) (fun _ => true)
      [strLs, gtTok, ['f']]).childEvents =
        childRun [['/','b','i','n']] (fun _ => true) (fun _ => true) [strLs, gtTok, ['f']] :=
  ⟨(wish_c7 [['/','b','i','n']] (fun _ => true) (fun _ => true) [strLs, gtTok, ['f']]).1
      0 2 ['f'] ['/','b','i','n','/','l','s'] (by decide) (by decide),
   (wish_c7 [['/','b','i','n']] (fun _ => true) (fun _ => true) [strLs, gtTok, ['f']]).2.2
      (by decide)⟩

/-- C8 (amended): a `path` invocation replaces the Search-Path Registry by
a prefix of its arguments, capped at TOKENS_NUMBER - 1 = 63 entries by
the copy loop's bound: (i) with at most 63 arguments the replacement is
wholesale, in the order given; (ii) zero arguments leave the registry
empty; (iii) the new registry never exceeds 63 entries, so an invocation
with 64 or more directory arguments silently drops the rest; (iv) `path`
itself always succeeds; (v) the result never depends on the old registry
(whose entries the C code frees). -/
theorem wish_c8_amended :
    (∀ old dirs : List Tok, dirs.length ≤ TOKENS_NUMBER - 1 →
        execute_path old (strPath :: dirs) = some dirs)
  ∧ (∀ old : List Tok, execute_path old [strPath] = some [])
  ∧ (∀ (old args : List Tok) (r : List Tok), execute_path old args = some r →
        r.length ≤ TOKENS_NUMBER - 1)
  ∧ (∀ old args : List Tok, args.head? = some strPath →
        (execute_path old args).isSome = true)
  ∧ (∀ old1 old2 args : List Tok, execute_path old1 args = execute_path old2 args) := by
  refine ⟨?_, ?_, ?_, ?_, ?_⟩
  · intro old dirs h
    simp [execute_path, List.take_of_length_le h]
  · intro old
    simp [execute_path]
  · intro old args r h
    simp only [execute_path] at h
    split at h
    · have hr : ((args.drop 1).take (TOKENS_NUMBER - 1)) = r := by
        injection h
      rw [← hr]
      have := List.length_take (TOKENS_NUMBER - 1) (args.drop 1)
      omega
    · exact absurd h (by simp)
  · intro old args h
    simp [execute_path, h]
  · intro old1 old2 args
    simp [execute_path]

/-- Witness for C8's amended theorem: "path /tmp" replaces the registry
wholesale by the single entry, and a `path` invocation is always
handled. -/
theorem wish_c8_amended_witness :
    execute_path initialize_path [strPath, ['/','t','m','p']] = some [['/','t','m','p']]
  ∧ (execute_path initialize_path [strPath]).isSome = true :=
  ⟨wish_c8_amended.1 initialize_path [['/','t','m','p']] (by decide),
   wish_c8_amended.2.2.2.1 initialize_path [strPath] (by decide)⟩

/-- C8 counterexample: a `path` invocation with 64 directory arguments.
The claim says the registry is replaced wholesale by the invocation's
arguments; the copy loop stops at TOKENS_NUMBER - 1 = 63 entries, so the
64th argument is dropped. -/
theorem wish_c8_counterexample :
    execute_path initialize_path (strPath :: List.replicate 64 ['/','t'])
      = some (List.replicate 63 ['/','t'])
  ∧ execute_path initialize_path (strPath :: List.replicate 64 ['/','t'])
      ≠ some (List.replicate 64 ['/','t']) := by
  constructor
  · simp [execute_path, TOKENS_NUMBER, List.take_replicate]
  · intro h
    simp only [execute_path] at h
    split at h
    · have h2 : (((strPath :: List.replicate 64 ['/','t']).drop 1).take (TOKENS_NUMBER - 1))
          = List.replicate 64 ['/','t'] := by
        injection h
      have := congrArg List.length h2
      simp [TOKENS_NUMBER, List.take_replicate] at this
    · exact absurd h (by simp)

/-- C9: correctness of the executable resolver.  For every execv oracle
and command name: (i) when the search succeeds with candidate p, the
registry splits as pre ++ d :: post where p is formed from d, every
earlier directory's candidate fails, and the child's exec loop tries
exactly the failing candidates in registry order followed by p and
nothing further (the first success wins with no further searching);
(ii) when every directory's candidate fails, the search reports nothing
and the exec loop tries every candidate in order and then prints the
generic error and exits the child with failure status; (iii) the empty
registry resolves to nothing immediately. -/
theorem wish_c9 (ok : Tok → Bool) (cmd0 : Tok) :
    (∀ (paths : List Tok) (p : Tok), resolveSearch paths ok cmd0 = some p →
        ∃ pre d post, paths = pre ++ d :: post ∧ p = create_executable_path d cmd0
          ∧ ok p = true
          ∧ (∀ d2 ∈ pre, ok (create_executable_path d2 cmd0) = false)
          ∧ execPhase ok cmd0 paths =
              (pre.map fun d2 => ChildEv.execTry (create_executable_path d2 cmd0))
                ++ [ChildEv.execTry p])
  ∧ (∀ paths : List Tok, (∀ d ∈ paths, ok (create_executable_path d cmd0) = false) →
        resolveSearch paths ok cmd0 = none
      ∧ execPhase ok cmd0 paths =
          (paths.map fun d => ChildEv.execTry (create_executable_path d cmd0))
            ++ [ChildEv.errPrint, ChildEv.exitFail])
  ∧ resolveSearch [] ok cmd0 = none := by
  refine ⟨?_, ?_, rfl⟩
  · intro paths
    induction paths with
    | nil => intro p h; simp [resolveSearch] at h
    | cons d rest ih =>
      intro p h
      by_cases hok : ok (create_executable_path d cmd0) = true
      · rw [resolveSearch, if_pos hok] at h
        obtain rfl : create_executable_path d cmd0 = p := by injection h
        exact ⟨[], d, rest, by simp, rfl, hok, by simp, by simp [execPhase, hok]⟩
      · rw [resolveSearch, if_neg hok] at h
        obtain ⟨pre, d1, post, hpaths, hp, hokp, hpre, hphase⟩ := ih p h
        refine ⟨d :: pre, d1, post, by rw [hpaths, List.cons_append], hp, hokp, ?_, ?_⟩
        · intro d2 hd2
          rcases List.mem_cons.mp hd2 with h2 | h2
          · subst h2
            exact Bool.not_eq_true _ ▸ (by simpa using hok)
          · exact hpre d2 h2
        · rw [execPhase, if_neg hok, hphase]
          simp
  · intro paths
    induction paths with
    | nil =>
      intro h
      exact ⟨rfl, by simp [execPhase]⟩
    | cons d rest ih =>
      intro h
      have hd : ok (create_executable_path d cmd0) = false := h d (by simp)
      have hrest := ih (fun d2 h2 => h d2 (List.mem_cons_of_mem _ h2))
      constructor
      · rw [resolveSearch, if_neg (by simp [hd]), hrest.1]
      · rw [execPhase, if_neg (by simp [hd]), hrest.2]
        simp

/-- Witness for C9 with the startup registry and an oracle on which only
"/usr/bin/ls" loads: the resolver skips "/bin" (whose candidate fails)
and succeeds on the second directory. -/
theorem wish_c9_witness :
    ∃ pre d post, initialize_path = pre ++ d :: post
      ∧ strUsrBinLs = create_executable_path d strLs
      ∧ okUsrBinLs strUsrBinLs = true
      ∧ (∀ d2 ∈ pre, okUsrBinLs (create_executable_path d2 strLs) = false)
      ∧ execPhase okUsrBinLs strLs initialize_path =
          (pre.map fun d2 => ChildEv.execTry (create_executable_path d2 strLs))
            ++ [ChildEv.execTry strUsrBinLs] :=
  (wish_c9 okUsrBinLs strLs).1 initialize_path strUsrBinLs (by decide)

/-- C10: the pid-array bookkeeping of wish_shell stores one entry per
dispatched sub-command at index process_count with no bounds check
against MAX_PARALLEL_PROCESSES = 16; every written index stays within the
array exactly when the line dispatches at most 16 sub-commands, and any
line dispatching more uses an index at or beyond the array bound. -/
theorem wish_c10 (args : List Tok) :
    (processCount args ≤ MAX_PARALLEL_PROCESSES →
        ∀ i ∈ slotIndices args, i < MAX_PARALLEL_PROCESSES)
  ∧ (MAX_PARALLEL_PROCESSES < processCount args →
        ∃ i ∈ slotIndices args, MAX_PARALLEL_PROCESSES ≤ i) := by
  constructor
  · intro h i hi
    simp only [slotIndices] at hi
    have := List.mem_range.mp hi
    omega
  · intro h
    refine ⟨MAX_PARALLEL_PROCESSES, ?_, le_refl _⟩
    simp only [slotIndices]
    exact List.mem_range.mpr h

/-- Witness for C10 on a line with seventeen "&"-separated sub-commands:
its process count exceeds the array bound and slot index 16 (one past the
last valid index 15) is used. -/
theorem wish_c10_witness :
    (MAX_PARALLEL_PROCESSES < processCount line17)
  ∧ (∃ i ∈ slotIndices line17, MAX_PARALLEL_PROCESSES ≤ i) :=
  ⟨by decide, (wish_c10 line17).2 (by decide)⟩
